import Mathlib

/-! Verification of the pixel-canvas core of the `visualizations` repository.

The definitions below are a shallow embedding of
`src/window-framework/src/canvas.rs` and `src/bins/bouncing-box/src/main.rs`.

Modelling conventions:
* `u32` values are natural numbers; the helper `u32` reduces modulo `2^32`
  at the places where the Rust code performs `u32` arithmetic that could wrap.
* `i32` values are unbounded integers (`Int`); the cast `u32 -> i32` performed
  by the Rust code (`as i32`) is modelled exactly by `i32ofU32`.
* The RGBA frame buffer is a `List Nat` of bytes.  Rust slice indexing panics
  when out of range, so every buffer access goes through `write_byte` /
  `read_byte`, which return `none` exactly when Rust would panic.  Operations
  that index the buffer consequently return `Option` results, where `none`
  models a panic of the original program.
* `Canvas.new` divides by the logical dimensions with unguarded `u32`
  division; a zero logical dimension makes Rust panic, modelled as
  `Except.error` carrying the Rust panic message.
-/

/-- Coordinate system for the canvas (`enum CoordinateSystem`). -/
inductive CoordinateSystem where
  | TopLeft : CoordinateSystem
  | Center : CoordinateSystem
deriving DecidableEq

/-- An RGBA color, one `Nat` per `u8` channel (`(u8, u8, u8, u8)` in the source). -/
structure Color where
  r : Nat
  g : Nat
  b : Nat
  a : Nat
deriving DecidableEq

/-- The canvas state: a borrowed frame buffer plus the configuration fields of
`struct Canvas` from `canvas.rs`. -/
structure Canvas where
  frame : List Nat
  physical_width : Nat
  physical_height : Nat
  logical_width : Nat
  logical_height : Nat
  pixel_scale_x : Nat
  pixel_scale_y : Nat
  coordinate_system : CoordinateSystem
  show_grid : Bool
  grid_color : Color
deriving DecidableEq

/-- Reduction modulo `2^32`, the wrap-around of Rust `u32` arithmetic. -/
def u32 (n : Nat) : Nat := n % 4294967296

/-- The Rust cast `u32 -> i32` (`as i32`): values below `2^31` are unchanged,
larger values wrap to negative integers. -/
def i32ofU32 (n : Nat) : Int :=
  if n < 2147483648 then (n : Int) else (n : Int) - 4294967296

/-- Embedding of `Canvas::new`: computes the two pixel scale factors by unguarded integer
division.  A zero logical dimension makes the Rust `u32` division panic, which
is modelled as an `Except.error` with the Rust panic message. -/
def Canvas.new (frame : List Nat) (physical_width physical_height : Nat)
    (logical_width logical_height : Nat) (coordinate_system : CoordinateSystem)
    (show_grid : Bool) (grid_color : Color) : Except String Canvas :=
  if logical_width = 0 ∨ logical_height = 0 then
    Except.error (r"attempt to divide by zero")
  else
    Except.ok
      { frame := frame
        physical_width := physical_width
        physical_height := physical_height
        logical_width := logical_width
        logical_height := logical_height
        pixel_scale_x := physical_width / logical_width
        pixel_scale_y := physical_height / logical_height
        coordinate_system := coordinate_system
        show_grid := show_grid
        grid_color := grid_color }

/-- The signed logical coordinate pair computed by the `match` at the top of
`Canvas::to_logical_coords` (before the bounds check). -/
def logical_pair (c : Canvas) (x y : Int) : Int × Int :=
  match c.coordinate_system with
  | CoordinateSystem.TopLeft => (x, y)
  | CoordinateSystem.Center =>
      (x + i32ofU32 (c.logical_width / 2), i32ofU32 (c.logical_height / 2) - y)

/-- Embedding of `Canvas::to_logical_coords`: convert user coordinates to logical buffer
coordinates; out-of-bounds coordinates give `none`. -/
def to_logical_coords (c : Canvas) (x y : Int) : Option (Nat × Nat) :=
  if 0 ≤ (logical_pair c x y).1 ∧ (logical_pair c x y).1 < i32ofU32 c.logical_width ∧
      0 ≤ (logical_pair c x y).2 ∧ (logical_pair c x y).2 < i32ofU32 c.logical_height then
    some ((logical_pair c x y).1.toNat, (logical_pair c x y).2.toNat)
  else
    none

/-- Write one byte of the frame buffer; `none` models the Rust indexing panic
when the index is out of range. -/
def write_byte (l : List Nat) (i v : Nat) : Option (List Nat) :=
  if i < l.length then some (l.set i v) else none

/-- Read one byte of the frame buffer; `none` models the Rust indexing panic
when the index is out of range. -/
def read_byte (l : List Nat) (i : Nat) : Option Nat :=
  l.get? i

/-- The byte index of physical pixel `(phys_x, phys_y)`:
`((phys_y * physical_width + phys_x) * 4) as usize` computed in `u32`. -/
def pixel_index (c : Canvas) (phys_x phys_y : Nat) : Nat :=
  u32 (u32 (u32 (phys_y * c.physical_width) + phys_x) * 4)

/-- Embedding of `Canvas::set_physical_pixel`: write the four RGBA bytes of one physical
pixel when it lies inside the physical dimensions, else do nothing. -/
def set_physical_pixel (c : Canvas) (phys_x phys_y : Nat) (color : Color) :
    Option Canvas :=
  if phys_x < c.physical_width ∧ phys_y < c.physical_height then
    match write_byte c.frame (pixel_index c phys_x phys_y) color.r with
    | none => none
    | some f0 =>
      match write_byte f0 (pixel_index c phys_x phys_y + 1) color.g with
      | none => none
      | some f1 =>
        match write_byte f1 (pixel_index c phys_x phys_y + 2) color.b with
        | none => none
        | some f2 =>
          match write_byte f2 (pixel_index c phys_x phys_y + 3) color.a with
          | none => none
          | some f3 => some { c with frame := f3 }
  else
    some c

/-- Embedding of `Canvas::get_physical_pixel`: read the four RGBA bytes of one physical
pixel; the inner `Option` is the source's `Option` (out of physical range),
the outer one models indexing panics. -/
def get_physical_pixel (c : Canvas) (phys_x phys_y : Nat) :
    Option (Option Color) :=
  if phys_x < c.physical_width ∧ phys_y < c.physical_height then
    match read_byte c.frame (pixel_index c phys_x phys_y) with
    | none => none
    | some vr =>
      match read_byte c.frame (pixel_index c phys_x phys_y + 1) with
      | none => none
      | some vg =>
        match read_byte c.frame (pixel_index c phys_x phys_y + 2) with
        | none => none
        | some vb =>
          match read_byte c.frame (pixel_index c phys_x phys_y + 3) with
          | none => none
          | some va => some (some ⟨vr, vg, vb, va⟩)
  else
    some none

/-- The sequence of physical pixels written by the nested block loops of
`Canvas::set_pixel` (outer loop `dy`, inner loop `dx`), with the `u32`
arithmetic of the source. -/
def block_targets (c : Canvas) (logical_x logical_y : Nat) : List (Nat × Nat) :=
  (List.range c.pixel_scale_y).flatMap (fun dy =>
    (List.range c.pixel_scale_x).map (fun dx =>
      (u32 (u32 (logical_x * c.pixel_scale_x) + dx),
       u32 (u32 (logical_y * c.pixel_scale_y) + dy))))

/-- Embedding of `Canvas::set_pixel`: transform to logical coordinates, then fill the block
of physical pixels for that logical pixel; returns whether the write occurred. -/
def set_pixel (c : Canvas) (x y : Int) (color : Color) : Option (Bool × Canvas) :=
  match to_logical_coords c x y with
  | some (logical_x, logical_y) =>
      ((block_targets c logical_x logical_y).foldlM
        (fun acc p => set_physical_pixel acc p.1 p.2 color) c).map
        (fun c2 => (true, c2))
  | none => some (false, c)

/-- Embedding of `Canvas::get_pixel`: the color of the top-left physical pixel of the block
of the logical pixel, or `none` (inner) when out of bounds. -/
def get_pixel (c : Canvas) (x y : Int) : Option (Option Color) :=
  match to_logical_coords c x y with
  | some (logical_x, logical_y) =>
      get_physical_pixel c (u32 (logical_x * c.pixel_scale_x))
        (u32 (logical_y * c.pixel_scale_y))
  | none => some none

/-- The frame rewrite of `Canvas::clear`: `chunks_exact_mut(4)` overwrites
every complete 4-byte chunk and leaves a shorter tail untouched. -/
def clear_frame (l : List Nat) (color : Color) : List Nat :=
  match l with
  | _ :: _ :: _ :: _ :: rest =>
      color.r :: color.g :: color.b :: color.a :: clear_frame rest color
  | rest => rest

/-- Embedding of `Canvas::clear`: overwrite every physical pixel of the whole buffer. -/
def clear (c : Canvas) (color : Color) : Canvas :=
  { c with frame := clear_frame c.frame color }

/-- The offsets visited by the nested loops of `Canvas::fill_rect`
(`for dy in 0..height as i32 { for dx in 0..width as i32 { ... } }`); the
`u32 -> i32` casts make the loops empty when a dimension is at least `2^31`. -/
def fill_offsets (x y : Int) (width height : Nat) : List (Int × Int) :=
  (List.range (i32ofU32 height).toNat).flatMap (fun (dy : Nat) =>
    (List.range (i32ofU32 width).toNat).map (fun (dx : Nat) =>
      (x + (dx : Int), y + (dy : Int))))

/-- Embedding of `Canvas::fill_rect`: repeated `set_pixel` calls over the rectangle's
offsets, discarding each boolean result. -/
def fill_rect (c : Canvas) (x y : Int) (width height : Nat) (color : Color) :
    Option Canvas :=
  (fill_offsets x y width height).foldlM
    (fun acc p => (set_pixel acc p.1 p.2 color).map (fun r => r.2)) c

/-- Modelled from the spec (§8, fill_rect composition): the offset list
`(x+dx, y+dy)` for `dx in [0,w)` and `dy in [0,h)` that the specification
claims `fill_rect` is equivalent to; unlike `fill_offsets` it has no
`u32 -> i32` cast. -/
def rect_offsets_spec (x y : Int) (width height : Nat) : List (Int × Int) :=
  (List.range height).flatMap (fun (dy : Nat) =>
    (List.range width).map (fun (dx : Nat) => (x + (dx : Int), y + (dy : Int))))

/-- The sequence of physical pixels written by `Canvas::draw_grid` when it is
active: first full-height vertical lines at every column boundary
`0..=logical_width` whose physical x lies inside the buffer, then full-width
horizontal lines at every row boundary `0..=logical_height`. -/
def grid_targets (c : Canvas) : List (Nat × Nat) :=
  (List.range (c.logical_width + 1)).flatMap (fun lx =>
    if u32 (lx * c.pixel_scale_x) < c.physical_width then
      (List.range c.physical_height).map (fun py => (u32 (lx * c.pixel_scale_x), py))
    else []) ++
  (List.range (c.logical_height + 1)).flatMap (fun ly =>
    if u32 (ly * c.pixel_scale_y) < c.physical_height then
      (List.range c.physical_width).map (fun px => (px, u32 (ly * c.pixel_scale_y)))
    else [])

/-- Embedding of `Canvas::draw_grid`: a no-op unless the grid is shown and both scale
factors exceed 1; otherwise overwrite every grid-line pixel with `grid_color`. -/
def draw_grid (c : Canvas) : Option Canvas :=
  if c.show_grid = false ∨ c.pixel_scale_x ≤ 1 ∨ c.pixel_scale_y ≤ 1 then
    some c
  else
    (grid_targets c).foldlM
      (fun acc p => set_physical_pixel acc p.1 p.2 c.grid_color) c

/-- The state of the bouncing-box world (`struct BouncingBox` in
`src/bins/bouncing-box/src/main.rs`); `i16` fields modelled as `Int`
(all reachable values are far from the `i16` range ends). -/
structure BouncingBox where
  box_x : Int
  box_y : Int
  velocity_x : Int
  velocity_y : Int
deriving DecidableEq

namespace BouncingBox

/-- Constant `RESOLUTION_WIDTH` from the bouncing-box binary. -/
def RESOLUTION_WIDTH : Nat := 320

/-- Constant `RESOLUTION_HEIGHT` from the bouncing-box binary. -/
def RESOLUTION_HEIGHT : Nat := 240

/-- Constant `WIDTH = RESOLUTION_WIDTH / 8`: the logical world width (40). -/
def WIDTH : Nat := RESOLUTION_WIDTH / 8

/-- Constant `HEIGHT = RESOLUTION_HEIGHT / 8`: the logical world height (30). -/
def HEIGHT : Nat := RESOLUTION_HEIGHT / 8

/-- Constant `BOX_SIZE`: the side length of the box. -/
def BOX_SIZE : Int := 8

/-- Embedding of `BouncingBox::new`: box at (24, 16) with velocity (1, 1). -/
def new : BouncingBox :=
  { box_x := 24, box_y := 16, velocity_x := 1, velocity_y := 1 }

/-- Embedding of `BouncingBox::update`: flip a velocity component when the box touches the
left/top edge or sticks out past the right/bottom edge, then move the box. -/
def update (b : BouncingBox) : BouncingBox :=
  let vx : Int :=
    if b.box_x ≤ 0 ∨ b.box_x + BOX_SIZE > (WIDTH : Int) then -b.velocity_x
    else b.velocity_x
  let vy : Int :=
    if b.box_y ≤ 0 ∨ b.box_y + BOX_SIZE > (HEIGHT : Int) then -b.velocity_y
    else b.velocity_y
  { box_x := b.box_x + vx, box_y := b.box_y + vy, velocity_x := vx, velocity_y := vy }

end BouncingBox

/-- The frame buffer has exactly the length `physical_width * physical_height * 4`
demanded by the spec's data-model invariant (§3). -/
def SafeLen (c : Canvas) : Prop :=
  c.frame.length = c.physical_width * c.physical_height * 4

/-- A well-formed canvas: the buffer-length invariant, dimensions representable
as the `u32`/`i32` values the source manipulates, a buffer small enough that
the `u32` index arithmetic cannot wrap, positive logical dimensions (a zero
dimension would already have made `Canvas::new` panic), and scale factors as
computed by `Canvas::new`. -/
def WF (c : Canvas) : Prop :=
  SafeLen c ∧
  c.physical_width * c.physical_height * 4 ≤ 4294967296 ∧
  c.physical_width < 4294967296 ∧ c.physical_height < 4294967296 ∧
  0 < c.logical_width ∧ 0 < c.logical_height ∧
  c.logical_width < 2147483648 ∧ c.logical_height < 2147483648 ∧
  c.pixel_scale_x = c.physical_width / c.logical_width ∧
  c.pixel_scale_y = c.physical_height / c.logical_height

instance : DecidablePred SafeLen := fun c => by unfold SafeLen; infer_instance

instance : DecidablePred WF := fun c => by unfold WF; infer_instance

/-- Total version of `set_physical_pixel`, used for reasoning; it agrees with
the checked version on buffers satisfying `SafeLen`. -/
def paintT (c : Canvas) (phys_x phys_y : Nat) (color : Color) : Canvas :=
  if phys_x < c.physical_width ∧ phys_y < c.physical_height then
    { c with frame :=
        ((((c.frame.set (pixel_index c phys_x phys_y) color.r).set
            (pixel_index c phys_x phys_y + 1) color.g).set
            (pixel_index c phys_x phys_y + 2) color.b).set
            (pixel_index c phys_x phys_y + 3) color.a) }
  else c

/-- Folding `paintT` over a list of physical-pixel targets. -/
def paintListT (c : Canvas) (ps : List (Nat × Nat)) (color : Color) : Canvas :=
  ps.foldl (fun acc p => paintT acc p.1 p.2 color) c

/-- Total version of `set_pixel`. -/
def set_pixelT (c : Canvas) (x y : Int) (color : Color) : Bool × Canvas :=
  match to_logical_coords c x y with
  | some (lx, ly) => (true, paintListT c (block_targets c lx ly) color)
  | none => (false, c)

/-- Predicate `covers pw ph p i`: byte `i` of the frame buffer belongs to the physical
pixel `p` of a `pw × ph` buffer. -/
def covers (pw ph : Nat) (p : Nat × Nat) (i : Nat) : Prop :=
  p.1 < pw ∧ p.2 < ph ∧ (p.2 * pw + p.1) * 4 ≤ i ∧ i < (p.2 * pw + p.1) * 4 + 4

instance covers.decidable (pw ph : Nat) (p : Nat × Nat) (i : Nat) :
    Decidable (covers pw ph p i) := by unfold covers; infer_instance

/-- The byte that channel `k` (0 = R, 1 = G, 2 = B, 3 = A) of a color writes. -/
def byteOf (color : Color) (k : Nat) : Nat :=
  if k = 0 then color.r else if k = 1 then color.g
  else if k = 2 then color.b else color.a

/-- Total version of `draw_grid`. -/
def draw_gridT (c : Canvas) : Canvas :=
  if c.show_grid = false ∨ c.pixel_scale_x ≤ 1 ∨ c.pixel_scale_y ≤ 1 then c
  else paintListT c (grid_targets c) c.grid_color

/-- The bytes written by one `set_pixel` call: byte `i` is written iff the
coordinate transform succeeds and some pixel of the resulting block covers
`i`. -/
def set_pixel_writes (c : Canvas) (x y : Int) (i : Nat) : Prop :=
  match to_logical_coords c x y with
  | some (lx, ly) =>
      ∃ q ∈ block_targets c lx ly, covers c.physical_width c.physical_height q i
  | none => False

instance set_pixel_writes.decidable (c : Canvas) (x y : Int) (i : Nat) :
    Decidable (set_pixel_writes c x y i) := by
  unfold set_pixel_writes
  cases to_logical_coords c x y with
  | none => exact inferInstanceAs (Decidable False)
  | some p =>
    obtain ⟨lx, ly⟩ := p
    dsimp only
    infer_instance

/-- Byte `i` lies on a grid line: it belongs to a physical pixel whose x is a
column boundary `lx * pixel_scale_x` for some `lx ≤ logical_width`, or whose
y is a row boundary `ly * pixel_scale_y` for some `ly ≤ logical_height`. -/
def on_grid_line (c : Canvas) (i : Nat) : Prop :=
  ∃ px py k, px < c.physical_width ∧ py < c.physical_height ∧ k < 4 ∧
    i = (py * c.physical_width + px) * 4 + k ∧
    ((∃ lx, lx ≤ c.logical_width ∧ px = lx * c.pixel_scale_x) ∨
     (∃ ly, ly ≤ c.logical_height ∧ py = ly * c.pixel_scale_y))

/-- Inductive invariant of the horizontal component of the bouncing box:
climbing states sit in `[1, 33]`, descending states in `[0, 32]`. -/
def xinv (p v : Int) : Prop :=
  (v = 1 ∧ 1 ≤ p ∧ p ≤ 33) ∨ (v = -1 ∧ 0 ≤ p ∧ p ≤ 32)

/-- Inductive invariant of the vertical component of the bouncing box. -/
def yinv (p v : Int) : Prop :=
  (v = 1 ∧ 1 ≤ p ∧ p ≤ 23) ∨ (v = -1 ∧ 0 ≤ p ∧ p ≤ 22)

/-- Inductive invariant of the bouncing-box world. -/
def BoxInv (b : BouncingBox) : Prop :=
  xinv b.box_x b.velocity_x ∧ yinv b.box_y b.velocity_y

instance : DecidablePred BoxInv := fun b => by unfold BoxInv xinv yinv; infer_instance

/-- A 2×2-logical canvas over a 4×4 physical buffer (scale 2×2), as produced
by `Canvas::new` on an all-zero 64-byte buffer. -/
def canvas_2x2_4x4 : Canvas :=
  { frame := List.replicate 64 0, physical_width := 4, physical_height := 4,
    logical_width := 2, logical_height := 2, pixel_scale_x := 2, pixel_scale_y := 2,
    coordinate_system := CoordinateSystem.TopLeft, show_grid := false,
    grid_color := ⟨0, 0, 0, 0⟩ }

/-- A 2×2-logical canvas over a 1×1 physical buffer: `Canvas::new` computes
scale factors `1 / 2 = 0` on both axes. -/
def canvas_scale0 : Canvas :=
  { frame := [7, 7, 7, 7], physical_width := 1, physical_height := 1,
    logical_width := 2, logical_height := 2, pixel_scale_x := 0, pixel_scale_y := 0,
    coordinate_system := CoordinateSystem.TopLeft, show_grid := false,
    grid_color := ⟨0, 0, 0, 0⟩ }

/-- A 1×1 canvas at scale 1 over an all-zero 4-byte buffer. -/
def canvas_1x1 : Canvas :=
  { frame := [0, 0, 0, 0], physical_width := 1, physical_height := 1,
    logical_width := 1, logical_height := 1, pixel_scale_x := 1, pixel_scale_y := 1,
    coordinate_system := CoordinateSystem.TopLeft, show_grid := false,
    grid_color := ⟨0, 0, 0, 0⟩ }

/-- A 10×10 canvas with the `Center` coordinate system. -/
def canvas_center_10 : Canvas :=
  { frame := List.replicate 400 0, physical_width := 10, physical_height := 10,
    logical_width := 10, logical_height := 10, pixel_scale_x := 1, pixel_scale_y := 1,
    coordinate_system := CoordinateSystem.Center, show_grid := false,
    grid_color := ⟨0, 0, 0, 0⟩ }

/-- A canvas with the grid flag on, horizontal scale 2 but vertical scale 1
(physical 4×2, logical 2×2), over an all-zero 32-byte buffer. -/
def canvas_grid_cex : Canvas :=
  { frame := List.replicate 32 0, physical_width := 4, physical_height := 2,
    logical_width := 2, logical_height := 2, pixel_scale_x := 2, pixel_scale_y := 1,
    coordinate_system := CoordinateSystem.TopLeft, show_grid := true,
    grid_color := ⟨9, 9, 9, 9⟩ }

/-- A canvas with the grid flag on and both scale factors 2 (physical 4×4,
logical 2×2), over an all-zero 64-byte buffer. -/
def canvas_grid_active : Canvas :=
  { frame := List.replicate 64 0, physical_width := 4, physical_height := 4,
    logical_width := 2, logical_height := 2, pixel_scale_x := 2, pixel_scale_y := 2,
    coordinate_system := CoordinateSystem.TopLeft, show_grid := true,
    grid_color := ⟨8, 8, 8, 8⟩ }

@[simp] theorem paintT_physical_width (c : Canvas) (px py : Nat) (col : Color) :
    (paintT c px py col).physical_width = c.physical_width := by
  unfold paintT; split <;> rfl

@[simp] theorem paintT_physical_height (c : Canvas) (px py : Nat) (col : Color) :
    (paintT c px py col).physical_height = c.physical_height := by
  unfold paintT; split <;> rfl

@[simp] theorem paintT_logical_width (c : Canvas) (px py : Nat) (col : Color) :
    (paintT c px py col).logical_width = c.logical_width := by
  unfold paintT; split <;> rfl

@[simp] theorem paintT_logical_height (c : Canvas) (px py : Nat) (col : Color) :
    (paintT c px py col).logical_height = c.logical_height := by
  unfold paintT; split <;> rfl

@[simp] theorem paintT_pixel_scale_x (c : Canvas) (px py : Nat) (col : Color) :
    (paintT c px py col).pixel_scale_x = c.pixel_scale_x := by
  unfold paintT; split <;> rfl

@[simp] theorem paintT_pixel_scale_y (c : Canvas) (px py : Nat) (col : Color) :
    (paintT c px py col).pixel_scale_y = c.pixel_scale_y := by
  unfold paintT; split <;> rfl

@[simp] theorem paintT_coordinate_system (c : Canvas) (px py : Nat) (col : Color) :
    (paintT c px py col).coordinate_system = c.coordinate_system := by
  unfold paintT; split <;> rfl

@[simp] theorem paintT_show_grid (c : Canvas) (px py : Nat) (col : Color) :
    (paintT c px py col).show_grid = c.show_grid := by
  unfold paintT; split <;> rfl

@[simp] theorem paintT_grid_color (c : Canvas) (px py : Nat) (col : Color) :
    (paintT c px py col).grid_color = c.grid_color := by
  unfold paintT; split <;> rfl

@[simp] theorem paintT_frame_length (c : Canvas) (px py : Nat) (col : Color) :
    (paintT c px py col).frame.length = c.frame.length := by
  unfold paintT; split <;> simp

theorem paintT_SafeLen (c : Canvas) (px py : Nat) (col : Color) (h : SafeLen c) :
    SafeLen (paintT c px py col) := by
  unfold SafeLen at h ⊢; simp [h]

/-- In-range physical coordinates give a pixel index whose four bytes lie
inside a buffer of the exact invariant length. -/
theorem pixel_index_add_lt (c : Canvas) (phys_x phys_y : Nat) (hlen : SafeLen c)
    (hx : phys_x < c.physical_width) (hy : phys_y < c.physical_height)
    (k : Nat) (hk : k < 4) : pixel_index c phys_x phys_y + k < c.frame.length := by
  unfold SafeLen at hlen
  unfold pixel_index u32
  set pw := c.physical_width
  set ph := c.physical_height
  have hbase : phys_y * pw + phys_x < pw * ph := by
    calc phys_y * pw + phys_x < phys_y * pw + pw := by omega
    _ = (phys_y + 1) * pw := by ring
    _ ≤ ph * pw := Nat.mul_le_mul_right pw (by omega)
    _ = pw * ph := Nat.mul_comm ph pw
  by_cases hsmall : pw * ph * 4 ≤ 4294967296
  · have h1 : phys_y * pw < 4294967296 := by omega
    have h2 : phys_y * pw + phys_x < 4294967296 := by omega
    have h3 : (phys_y * pw + phys_x) * 4 < 4294967296 := by omega
    rw [Nat.mod_eq_of_lt h1, Nat.mod_eq_of_lt h2, Nat.mod_eq_of_lt h3]
    omega
  · have h4 : ∀ n : Nat, n * 4 % 4294967296 = n % 1073741824 * 4 := by
      intro n
      have : n * 4 % 4294967296 = n * 4 % (1073741824 * 4) := by norm_num
      rw [this, Nat.mul_mod_mul_right]
    have h5 := h4 ((phys_y * pw % 4294967296 + phys_x) % 4294967296)
    have h6 : ((phys_y * pw % 4294967296 + phys_x) % 4294967296) % 1073741824 <
        1073741824 := Nat.mod_lt _ (by omega)
    omega

/-- When the buffer is small enough that `u32` index arithmetic cannot wrap,
the pixel index is the plain row-major byte offset. -/
theorem pixel_index_eq (c : Canvas) (phys_x phys_y : Nat)
    (hsmall : c.physical_width * c.physical_height * 4 ≤ 4294967296)
    (hx : phys_x < c.physical_width) (hy : phys_y < c.physical_height) :
    pixel_index c phys_x phys_y = (phys_y * c.physical_width + phys_x) * 4 := by
  unfold pixel_index u32
  set pw := c.physical_width
  set ph := c.physical_height
  have hbase : phys_y * pw + phys_x < pw * ph := by
    calc phys_y * pw + phys_x < phys_y * pw + pw := by omega
    _ = (phys_y + 1) * pw := by ring
    _ ≤ ph * pw := Nat.mul_le_mul_right pw (by omega)
    _ = pw * ph := Nat.mul_comm ph pw
  have h1 : phys_y * pw < 4294967296 := by omega
  have h2 : phys_y * pw + phys_x < 4294967296 := by omega
  have h3 : (phys_y * pw + phys_x) * 4 < 4294967296 := by omega
  rw [Nat.mod_eq_of_lt h1, Nat.mod_eq_of_lt h2, Nat.mod_eq_of_lt h3]

/-- On buffers of the invariant length, the checked physical-pixel write never
panics and agrees with the total `paintT`. -/
theorem set_physical_pixel_eq_paintT (c : Canvas) (phys_x phys_y : Nat)
    (color : Color) (hlen : SafeLen c) :
    set_physical_pixel c phys_x phys_y color = some (paintT c phys_x phys_y color) := by
  unfold set_physical_pixel paintT
  by_cases h : phys_x < c.physical_width ∧ phys_y < c.physical_height
  · rw [if_pos h, if_pos h]
    have h0 : pixel_index c phys_x phys_y < c.frame.length := by
      have := pixel_index_add_lt c phys_x phys_y hlen h.1 h.2 0 (by omega); omega
    have h1 := pixel_index_add_lt c phys_x phys_y hlen h.1 h.2 1 (by omega)
    have h2 := pixel_index_add_lt c phys_x phys_y hlen h.1 h.2 2 (by omega)
    have h3 := pixel_index_add_lt c phys_x phys_y hlen h.1 h.2 3 (by omega)
    simp only [write_byte, List.length_set, h0, h1, h2, h3, if_true]
  · rw [if_neg h, if_neg h]

/-- Pointwise effect of one physical-pixel write: the four bytes of the target
pixel get the color's channels, every other byte is untouched. -/
theorem paintT_getElem? (c : Canvas) (phys_x phys_y : Nat) (color : Color)
    (hlen : SafeLen c)
    (hsmall : c.physical_width * c.physical_height * 4 ≤ 4294967296) (i : Nat) :
    (paintT c phys_x phys_y color).frame[i]? =
      if covers c.physical_width c.physical_height (phys_x, phys_y) i
      then some (byteOf color (i % 4)) else c.frame[i]? := by
  by_cases hg : phys_x < c.physical_width ∧ phys_y < c.physical_height
  · have hidx := pixel_index_eq c phys_x phys_y hsmall hg.1 hg.2
    have h0 : pixel_index c phys_x phys_y < c.frame.length := by
      have := pixel_index_add_lt c phys_x phys_y hlen hg.1 hg.2 0 (by omega); omega
    have h1 := pixel_index_add_lt c phys_x phys_y hlen hg.1 hg.2 1 (by omega)
    have h2 := pixel_index_add_lt c phys_x phys_y hlen hg.1 hg.2 2 (by omega)
    have h3 := pixel_index_add_lt c phys_x phys_y hlen hg.1 hg.2 3 (by omega)
    have hcov : covers c.physical_width c.physical_height (phys_x, phys_y) i ↔
        pixel_index c phys_x phys_y ≤ i ∧ i < pixel_index c phys_x phys_y + 4 := by
      unfold covers
      rw [hidx]
      simp [hg.1, hg.2]
    set n := phys_y * c.physical_width + phys_x with hn
    unfold paintT
    rw [if_pos hg]
    simp only [List.getElem?_set, List.length_set]
    by_cases hi : pixel_index c phys_x phys_y ≤ i ∧ i < pixel_index c phys_x phys_y + 4
    · rw [if_pos (hcov.mpr hi)]
      have hcase : i = n * 4 ∨ i = n * 4 + 1 ∨ i = n * 4 + 2 ∨ i = n * 4 + 3 := by
        rw [hidx] at hi; omega
      rcases hcase with hc | hc | hc | hc
      · rw [if_neg (by omega), if_neg (by omega), if_neg (by omega),
          if_pos (by omega), if_pos (by omega)]
        have : i % 4 = 0 := by omega
        simp [byteOf, this]
      · rw [if_neg (by omega), if_neg (by omega), if_pos (by omega), if_pos (by omega)]
        have : i % 4 = 1 := by omega
        simp [byteOf, this]
      · rw [if_neg (by omega), if_pos (by omega), if_pos (by omega)]
        have : i % 4 = 2 := by omega
        simp [byteOf, this]
      · rw [if_pos (by omega), if_pos (by omega)]
        have : i % 4 = 3 := by omega
        simp [byteOf, this]
    · rw [if_neg (fun hcc => hi (hcov.mp hcc))]
      rw [if_neg (by omega), if_neg (by omega), if_neg (by omega), if_neg (by omega)]
  · unfold paintT
    rw [if_neg hg]
    rw [if_neg (by unfold covers; simp only [not_and]; intro h'; omega)]

theorem paintListT_fields (color : Color) :
    ∀ (ps : List (Nat × Nat)) (c : Canvas),
      (paintListT c ps color).physical_width = c.physical_width ∧
      (paintListT c ps color).physical_height = c.physical_height ∧
      (paintListT c ps color).logical_width = c.logical_width ∧
      (paintListT c ps color).logical_height = c.logical_height ∧
      (paintListT c ps color).pixel_scale_x = c.pixel_scale_x ∧
      (paintListT c ps color).pixel_scale_y = c.pixel_scale_y ∧
      (paintListT c ps color).coordinate_system = c.coordinate_system ∧
      (paintListT c ps color).show_grid = c.show_grid ∧
      (paintListT c ps color).grid_color = c.grid_color ∧
      (paintListT c ps color).frame.length = c.frame.length := by
  intro ps
  induction ps with
  | nil => intro c; exact ⟨rfl, rfl, rfl, rfl, rfl, rfl, rfl, rfl, rfl, rfl⟩
  | cons p rest ih =>
    intro c
    have h := ih (paintT c p.1 p.2 color)
    unfold paintListT at h ⊢
    simp only [List.foldl_cons]
    refine ⟨?_, ?_, ?_, ?_, ?_, ?_, ?_, ?_, ?_, ?_⟩ <;> simp [h.1, h.2.1, h.2.2.1,
      h.2.2.2.1, h.2.2.2.2.1, h.2.2.2.2.2.1, h.2.2.2.2.2.2.1, h.2.2.2.2.2.2.2.1,
      h.2.2.2.2.2.2.2.2.1, h.2.2.2.2.2.2.2.2.2]

theorem paintListT_SafeLen (color : Color) (ps : List (Nat × Nat)) (c : Canvas)
    (h : SafeLen c) : SafeLen (paintListT c ps color) := by
  have hf := paintListT_fields color ps c
  unfold SafeLen at h ⊢
  rw [hf.2.2.2.2.2.2.2.2.2, hf.1, hf.2.1, h]

/-- Pointwise effect of a sequence of physical-pixel writes of one color:
a byte is the color's channel iff some target pixel covers it. -/
theorem paintListT_getElem? (color : Color) :
    ∀ (ps : List (Nat × Nat)) (c : Canvas), SafeLen c →
      c.physical_width * c.physical_height * 4 ≤ 4294967296 → ∀ i,
      (paintListT c ps color).frame[i]? =
        if ∃ p ∈ ps, covers c.physical_width c.physical_height p i
        then some (byteOf color (i % 4)) else c.frame[i]? := by
  intro ps
  induction ps with
  | nil =>
    intro c _ _ i
    simp [paintListT]
  | cons p rest ih =>
    intro c hlen hsmall i
    have hstep := paintT_getElem? c p.1 p.2 color hlen hsmall i
    have hfields := paintListT_fields color rest (paintT c p.1 p.2 color)
    have hih := ih (paintT c p.1 p.2 color) (paintT_SafeLen c p.1 p.2 color hlen)
      (by simpa using hsmall) i
    unfold paintListT at hih ⊢
    simp only [List.foldl_cons]
    rw [hih]
    simp only [paintT_physical_width, paintT_physical_height]
    by_cases hrest : ∃ q ∈ rest, covers c.physical_width c.physical_height q i
    · obtain ⟨q, hq, hc⟩ := hrest
      rw [if_pos ⟨q, hq, hc⟩, if_pos ⟨q, List.mem_cons_of_mem p hq, hc⟩]
    · rw [if_neg hrest, hstep]
      by_cases hp : covers c.physical_width c.physical_height (p.1, p.2) i
      · rw [if_pos hp, if_pos ⟨p, List.mem_cons_self p rest, by simpa using hp⟩]
      · rw [if_neg hp, if_neg ?hno]
        case hno =>
          rintro ⟨q, hq, hc⟩
          rcases List.mem_cons.mp hq with rfl | hq'
          · exact hp (by simpa using hc)
          · exact hrest ⟨q, hq', hc⟩

/-- On buffers of the invariant length, folding the checked write over a
target list never panics and agrees with the total fold. -/
theorem foldlM_paint_eq (color : Color) :
    ∀ (ps : List (Nat × Nat)) (c : Canvas), SafeLen c →
      ps.foldlM (fun acc p => set_physical_pixel acc p.1 p.2 color) c =
        some (paintListT c ps color) := by
  intro ps
  induction ps with
  | nil => intro c _; rfl
  | cons p rest ih =>
    intro c hlen
    rw [List.foldlM_cons, set_physical_pixel_eq_paintT c p.1 p.2 color hlen]
    show List.foldlM _ (paintT c p.1 p.2 color) rest = _
    rw [ih (paintT c p.1 p.2 color) (paintT_SafeLen c p.1 p.2 color hlen)]
    rfl

/-- On buffers of the invariant length, `set_pixel` never panics and agrees
with its total version. -/
theorem set_pixel_eq_T (c : Canvas) (x y : Int) (color : Color) (hlen : SafeLen c) :
    set_pixel c x y color = some (set_pixelT c x y color) := by
  unfold set_pixel set_pixelT
  cases h : to_logical_coords c x y with
  | none => rfl
  | some p =>
    obtain ⟨lx, ly⟩ := p
    dsimp only
    rw [foldlM_paint_eq color (block_targets c lx ly) c hlen]
    rfl

theorem set_pixelT_fields (c : Canvas) (x y : Int) (color : Color) :
    (set_pixelT c x y color).2.physical_width = c.physical_width ∧
    (set_pixelT c x y color).2.physical_height = c.physical_height ∧
    (set_pixelT c x y color).2.logical_width = c.logical_width ∧
    (set_pixelT c x y color).2.logical_height = c.logical_height ∧
    (set_pixelT c x y color).2.pixel_scale_x = c.pixel_scale_x ∧
    (set_pixelT c x y color).2.pixel_scale_y = c.pixel_scale_y ∧
    (set_pixelT c x y color).2.coordinate_system = c.coordinate_system ∧
    (set_pixelT c x y color).2.show_grid = c.show_grid ∧
    (set_pixelT c x y color).2.grid_color = c.grid_color ∧
    (set_pixelT c x y color).2.frame.length = c.frame.length := by
  unfold set_pixelT
  cases h : to_logical_coords c x y with
  | none => exact ⟨rfl, rfl, rfl, rfl, rfl, rfl, rfl, rfl, rfl, rfl⟩
  | some p =>
    obtain ⟨lx, ly⟩ := p
    exact paintListT_fields color (block_targets c lx ly) c

theorem set_pixelT_SafeLen (c : Canvas) (x y : Int) (color : Color)
    (h : SafeLen c) : SafeLen (set_pixelT c x y color).2 := by
  have hf := set_pixelT_fields c x y color
  unfold SafeLen at h ⊢
  rw [hf.2.2.2.2.2.2.2.2.2, hf.1, hf.2.1, h]

/-- On buffers of the invariant length, a sequence of `set_pixel` calls never
panics and agrees with the total fold of `set_pixelT`. -/
theorem foldlM_set_pixel_eq (color : Color) :
    ∀ (ps : List (Int × Int)) (c : Canvas), SafeLen c →
      ps.foldlM (fun acc p => (set_pixel acc p.1 p.2 color).map (fun r => r.2)) c =
        some (ps.foldl (fun acc p => (set_pixelT acc p.1 p.2 color).2) c) := by
  intro ps
  induction ps with
  | nil => intro c _; rfl
  | cons p rest ih =>
    intro c hlen
    rw [List.foldlM_cons]
    rw [set_pixel_eq_T c p.1 p.2 color hlen]
    show List.foldlM _ (set_pixelT c p.1 p.2 color).2 rest = _
    rw [ih _ (set_pixelT_SafeLen c p.1 p.2 color hlen)]
    rfl

/-- On buffers of the invariant length, `fill_rect` never panics and is the
total fold of `set_pixelT` over the loop offsets. -/
theorem fill_rect_eq_T (c : Canvas) (x y : Int) (width height : Nat) (color : Color)
    (hlen : SafeLen c) :
    fill_rect c x y width height color =
      some ((fill_offsets x y width height).foldl
        (fun acc p => (set_pixelT acc p.1 p.2 color).2) c) :=
  foldlM_set_pixel_eq color (fill_offsets x y width height) c hlen

/-- On buffers of the invariant length, `draw_grid` never panics and agrees
with its total version. -/
theorem draw_grid_eq_T (c : Canvas) (hlen : SafeLen c) :
    draw_grid c = some (draw_gridT c) := by
  unfold draw_grid draw_gridT
  split
  · rfl
  · exact foldlM_paint_eq c.grid_color (grid_targets c) c hlen

/-- On buffers of the invariant length, reading an in-range physical pixel
never panics and returns the four bytes at its index. -/
theorem get_physical_pixel_eq (c : Canvas) (phys_x phys_y : Nat) (hlen : SafeLen c)
    (hx : phys_x < c.physical_width) (hy : phys_y < c.physical_height) :
    get_physical_pixel c phys_x phys_y =
      some (some ⟨c.frame.getD (pixel_index c phys_x phys_y) 0,
                  c.frame.getD (pixel_index c phys_x phys_y + 1) 0,
                  c.frame.getD (pixel_index c phys_x phys_y + 2) 0,
                  c.frame.getD (pixel_index c phys_x phys_y + 3) 0⟩) := by
  have e : ∀ k, k < 4 → c.frame.get? (pixel_index c phys_x phys_y + k) =
      some (c.frame.getD (pixel_index c phys_x phys_y + k) 0) := by
    intro k hk
    have hlt := pixel_index_add_lt c phys_x phys_y hlen hx hy k hk
    rw [List.get?_eq_getElem?, List.getElem?_eq_getElem hlt,
      List.getD_eq_getElem?_getD, List.getElem?_eq_getElem hlt]
    rfl
  have e0 := e 0 (by omega)
  rw [Nat.add_zero] at e0
  unfold get_physical_pixel
  rw [if_pos ⟨hx, hy⟩]
  simp only [read_byte, e0, e 1 (by omega), e 2 (by omega), e 3 (by omega)]

/-- Reading via `get_physical_pixel` returns the source's `None` on out-of-range physical
coordinates, without touching the buffer. -/
theorem get_physical_pixel_oob (c : Canvas) (phys_x phys_y : Nat)
    (h : ¬(phys_x < c.physical_width ∧ phys_y < c.physical_height)) :
    get_physical_pixel c phys_x phys_y = some none := by
  unfold get_physical_pixel
  rw [if_neg h]

/-- The transform `to_logical_coords` only looks at the logical dimensions and the
coordinate system, so frame writes do not change it. -/
theorem to_logical_coords_congr (c c' : Canvas) (x y : Int)
    (h1 : c'.logical_width = c.logical_width)
    (h2 : c'.logical_height = c.logical_height)
    (h3 : c'.coordinate_system = c.coordinate_system) :
    to_logical_coords c' x y = to_logical_coords c x y := by
  unfold to_logical_coords logical_pair
  rw [h1, h2, h3]

@[simp] theorem i32ofU32_of_lt {n : Nat} (h : n < 2147483648) : i32ofU32 n = n :=
  if_pos h

/-- A successful coordinate transform lands strictly inside the logical
dimensions. -/
theorem to_logical_coords_lt (c : Canvas) (x y : Int) (lx ly : Nat)
    (hw : c.logical_width < 2147483648) (hh : c.logical_height < 2147483648)
    (h : to_logical_coords c x y = some (lx, ly)) :
    lx < c.logical_width ∧ ly < c.logical_height := by
  unfold to_logical_coords at h
  split at h
  · rename_i hcond
    rw [i32ofU32_of_lt hw, i32ofU32_of_lt hh] at hcond
    simp only [Option.some.injEq, Prod.mk.injEq] at h
    obtain ⟨h1, h2⟩ := h
    constructor
    · rw [← h1]; omega
    · rw [← h2]; omega
  · exact absurd h (by simp)

/-- One coordinate of a logical block stays inside the physical width. -/
theorem block_coord_lt_width (c : Canvas) (lx dx : Nat)
    (hsx : c.pixel_scale_x = c.physical_width / c.logical_width)
    (hlx : lx < c.logical_width) (hdx : dx < c.pixel_scale_x) :
    lx * c.pixel_scale_x + dx < c.physical_width := by
  have h1 : (lx + 1) * c.pixel_scale_x ≤ c.logical_width * c.pixel_scale_x :=
    Nat.mul_le_mul_right _ (by omega)
  have h2 : c.logical_width * c.pixel_scale_x ≤ c.physical_width := by
    rw [hsx]
    calc c.logical_width * (c.physical_width / c.logical_width)
        = c.physical_width / c.logical_width * c.logical_width := Nat.mul_comm _ _
      _ ≤ c.physical_width := Nat.div_mul_le_self _ _
  have h3 : (lx + 1) * c.pixel_scale_x = lx * c.pixel_scale_x + c.pixel_scale_x := by
    ring
  omega

/-- One coordinate of a logical block stays inside the physical height. -/
theorem block_coord_lt_height (c : Canvas) (ly dy : Nat)
    (hsy : c.pixel_scale_y = c.physical_height / c.logical_height)
    (hly : ly < c.logical_height) (hdy : dy < c.pixel_scale_y) :
    ly * c.pixel_scale_y + dy < c.physical_height := by
  have h1 : (ly + 1) * c.pixel_scale_y ≤ c.logical_height * c.pixel_scale_y :=
    Nat.mul_le_mul_right _ (by omega)
  have h2 : c.logical_height * c.pixel_scale_y ≤ c.physical_height := by
    rw [hsy]
    calc c.logical_height * (c.physical_height / c.logical_height)
        = c.physical_height / c.logical_height * c.logical_height := Nat.mul_comm _ _
      _ ≤ c.physical_height := Nat.div_mul_le_self _ _
  have h3 : (ly + 1) * c.pixel_scale_y = ly * c.pixel_scale_y + c.pixel_scale_y := by
    ring
  omega

/-- With a in-bounds logical pixel on a well-formed canvas, the `u32`
arithmetic of the block loops never wraps: the target list is the plain block. -/
theorem mem_block_targets (c : Canvas) (lx ly : Nat) (hWF : WF c)
    (hlx : lx < c.logical_width) (hly : ly < c.logical_height) (q : Nat × Nat) :
    q ∈ block_targets c lx ly ↔
      ∃ dx dy, dx < c.pixel_scale_x ∧ dy < c.pixel_scale_y ∧
        q = (lx * c.pixel_scale_x + dx, ly * c.pixel_scale_y + dy) := by
  obtain ⟨hlen, hsmall, hpw, hph, hlw0, hlh0, hlw, hlh, hsx, hsy⟩ := hWF
  have hux : ∀ dx, dx < c.pixel_scale_x →
      u32 (u32 (lx * c.pixel_scale_x) + dx) = lx * c.pixel_scale_x + dx := by
    intro dx hdx
    have hb := block_coord_lt_width c lx dx hsx hlx hdx
    have h1 : lx * c.pixel_scale_x < 4294967296 := by omega
    unfold u32
    rw [Nat.mod_eq_of_lt h1, Nat.mod_eq_of_lt (by omega)]
  have huy : ∀ dy, dy < c.pixel_scale_y →
      u32 (u32 (ly * c.pixel_scale_y) + dy) = ly * c.pixel_scale_y + dy := by
    intro dy hdy
    have hb := block_coord_lt_height c ly dy hsy hly hdy
    have h1 : ly * c.pixel_scale_y < 4294967296 := by omega
    unfold u32
    rw [Nat.mod_eq_of_lt h1, Nat.mod_eq_of_lt (by omega)]
  unfold block_targets
  simp only [List.mem_flatMap, List.mem_map, List.mem_range]
  constructor
  · rintro ⟨dy, hdy, dx, hdx, rfl⟩
    exact ⟨dx, dy, hdx, hdy, by rw [hux dx hdx, huy dy hdy]⟩
  · rintro ⟨dx, dy, hdx, hdy, rfl⟩
    exact ⟨dy, hdy, dx, hdx, by rw [hux dx hdx, huy dy hdy]⟩

/-- Length of the buffer after `clear`: `chunks_exact_mut(4)` rewrites chunks
in place, so the length is unchanged. -/
theorem clear_frame_length : ∀ (l : List Nat) (color : Color),
    (clear_frame l color).length = l.length
  | b0 :: b1 :: b2 :: b3 :: rest, color => by
      show (color.r :: color.g :: color.b :: color.a :: clear_frame rest color).length = _
      simp [clear_frame_length rest color]
  | [], _ => rfl
  | [b0], _ => rfl
  | [b0, b1], _ => rfl
  | [b0, b1, b2], _ => rfl

theorem BoxInv_new : BoxInv BouncingBox.new := by decide

theorem BoxInv_update (b : BouncingBox) (h : BoxInv b) :
    BoxInv (BouncingBox.update b) := by
  obtain ⟨hx, hy⟩ := h
  unfold BoxInv xinv yinv at *
  unfold BouncingBox.update BouncingBox.BOX_SIZE BouncingBox.WIDTH BouncingBox.HEIGHT
    BouncingBox.RESOLUTION_WIDTH BouncingBox.RESOLUTION_HEIGHT
  dsimp only
  constructor
  · split_ifs <;> omega
  · split_ifs <;> omega

theorem BoxInv_reach (n : Nat) : BoxInv (BouncingBox.update^[n] BouncingBox.new) := by
  induction n with
  | zero => exact BoxInv_new
  | succ n ih =>
    rw [Function.iterate_succ_apply']
    exact BoxInv_update _ ih

/-- C2 (amended): in every reachable state of the bouncing-box world the box
stays within `box_x ≤ 33 = (WIDTH - 8) + 1` and `box_y ≤ 23 = (HEIGHT - 8) + 1`
(it overshoots the resting bound `WIDTH - 8` by exactly one for one frame), and
whenever `box_x + 8` exceeds the logical world width 40 (resp. `box_y + 8`
exceeds 30) the horizontal (resp. vertical) velocity flips sign on the next
update. -/
theorem bouncing_box_bounds (n : Nat) :
    ((BouncingBox.update^[n] BouncingBox.new).box_x + 8 > 40 →
      (BouncingBox.update (BouncingBox.update^[n] BouncingBox.new)).velocity_x =
        -(BouncingBox.update^[n] BouncingBox.new).velocity_x) ∧
    (BouncingBox.update^[n] BouncingBox.new).box_x ≤ 33 ∧
    ((BouncingBox.update^[n] BouncingBox.new).box_y + 8 > 30 →
      (BouncingBox.update (BouncingBox.update^[n] BouncingBox.new)).velocity_y =
        -(BouncingBox.update^[n] BouncingBox.new).velocity_y) ∧
    (BouncingBox.update^[n] BouncingBox.new).box_y ≤ 23 := by
  have hinv := BoxInv_reach n
  set b := BouncingBox.update^[n] BouncingBox.new with hb
  obtain ⟨hx, hy⟩ := hinv
  unfold xinv at hx
  unfold yinv at hy
  refine ⟨?_, ?_, ?_, ?_⟩
  · intro hgt
    unfold BouncingBox.update
    dsimp only
    rw [if_pos (Or.inr (by
      unfold BouncingBox.BOX_SIZE BouncingBox.WIDTH BouncingBox.RESOLUTION_WIDTH
      omega))]
  · omega
  · intro hgt
    unfold BouncingBox.update
    dsimp only
    rw [if_pos (Or.inr (by
      unfold BouncingBox.BOX_SIZE BouncingBox.HEIGHT BouncingBox.RESOLUTION_HEIGHT
      omega))]
  · omega

theorem bouncing_box_bounds_witness :
    ((BouncingBox.update (BouncingBox.update^[9] BouncingBox.new)).velocity_x =
      -(BouncingBox.update^[9] BouncingBox.new).velocity_x) ∧
    (BouncingBox.update^[9] BouncingBox.new).box_x ≤ 33 ∧
    ((BouncingBox.update (BouncingBox.update^[7] BouncingBox.new)).velocity_y =
      -(BouncingBox.update^[7] BouncingBox.new).velocity_y) ∧
    (BouncingBox.update^[7] BouncingBox.new).box_y ≤ 23 :=
  ⟨(bouncing_box_bounds 9).1 (by decide), (bouncing_box_bounds 9).2.1,
   (bouncing_box_bounds 7).2.2.1 (by decide), (bouncing_box_bounds 7).2.2.2⟩

/-- C2 (counterexample to the claim as stated): after 9 updates the box sits
at `box_x = 33`, which exceeds `WIDTH - 8 = 32`, so `box_x` does not stay
below the world width minus the box size. -/
theorem bouncing_box_exceeds_resting_bound :
    ¬ ∀ n : Nat, (BouncingBox.update^[n] BouncingBox.new).box_x ≤ 40 - 8 :=
  fun h => absurd (h 9) (by decide)

/-- C4: `Canvas::new` computes both scale factors by integer division of
physical by logical dimensions whenever the logical dimensions are positive,
and a zero logical dimension makes construction halt immediately with the
division-by-zero error (the Rust `u32` division panics), rather than building
a canvas or corrupting memory. -/
theorem canvas_new_guard (frame : List Nat) (pw ph lw lh : Nat)
    (cs : CoordinateSystem) (sg : Bool) (gc : Color) :
    (0 < lw → 0 < lh →
      Canvas.new frame pw ph lw lh cs sg gc = Except.ok
        { frame := frame, physical_width := pw, physical_height := ph,
          logical_width := lw, logical_height := lh,
          pixel_scale_x := pw / lw, pixel_scale_y := ph / lh,
          coordinate_system := cs, show_grid := sg, grid_color := gc }) ∧
    (lw = 0 ∨ lh = 0 →
      Canvas.new frame pw ph lw lh cs sg gc =
        Except.error (r"attempt to divide by zero")) := by
  constructor
  · intro h1 h2
    unfold Canvas.new
    rw [if_neg (by omega)]
  · intro h
    unfold Canvas.new
    rw [if_pos h]

theorem canvas_new_guard_witness :
    Canvas.new [0, 0, 0, 0] 2 2 1 1 CoordinateSystem.TopLeft false ⟨0, 0, 0, 0⟩ =
      Except.ok
        { frame := [0, 0, 0, 0], physical_width := 2, physical_height := 2,
          logical_width := 1, logical_height := 1,
          pixel_scale_x := 2 / 1, pixel_scale_y := 2 / 1,
          coordinate_system := CoordinateSystem.TopLeft, show_grid := false,
          grid_color := ⟨0, 0, 0, 0⟩ } ∧
    Canvas.new [] 2 2 0 1 CoordinateSystem.TopLeft false ⟨0, 0, 0, 0⟩ =
      Except.error (r"attempt to divide by zero") :=
  ⟨(canvas_new_guard [0, 0, 0, 0] 2 2 1 1 CoordinateSystem.TopLeft false
      ⟨0, 0, 0, 0⟩).1 (by omega) (by omega),
   (canvas_new_guard [] 2 2 0 1 CoordinateSystem.TopLeft false
      ⟨0, 0, 0, 0⟩).2 (Or.inl rfl)⟩

/-- C5: whenever the transformed coordinate is out of logical bounds,
`set_pixel` returns `false` and the canvas — in particular every byte of the
frame buffer — is unchanged; no panic or error path is taken. -/
theorem set_pixel_clips_out_of_bounds (c : Canvas) (x y : Int) (color : Color)
    (h : to_logical_coords c x y = none) :
    set_pixel c x y color = some (false, c) := by
  unfold set_pixel
  rw [h]

theorem set_pixel_clips_out_of_bounds_witness :
    set_pixel canvas_2x2_4x4 5 0 ⟨1, 2, 3, 4⟩ = some (false, canvas_2x2_4x4) :=
  set_pixel_clips_out_of_bounds canvas_2x2_4x4 5 0 ⟨1, 2, 3, 4⟩ (by decide)

/-- C8: with the `Center` coordinate system the transform computes
`buffer_x = x + width/2` (integer halving) and `buffer_y = height/2 - y`
(Y axis flipped) and then bounds-checks the result. -/
theorem center_transform (c : Canvas) (x y : Int)
    (hcs : c.coordinate_system = CoordinateSystem.Center)
    (hw : c.logical_width < 2147483648) (hh : c.logical_height < 2147483648) :
    to_logical_coords c x y =
      if 0 ≤ x + ((c.logical_width / 2 : Nat) : Int) ∧
          x + ((c.logical_width / 2 : Nat) : Int) < (c.logical_width : Int) ∧
          0 ≤ ((c.logical_height / 2 : Nat) : Int) - y ∧
          ((c.logical_height / 2 : Nat) : Int) - y < (c.logical_height : Int) then
        some ((x + ((c.logical_width / 2 : Nat) : Int)).toNat,
              (((c.logical_height / 2 : Nat) : Int) - y).toNat)
      else none := by
  unfold to_logical_coords logical_pair
  rw [hcs]
  have h2 : c.logical_width / 2 < 2147483648 := by omega
  have h3 : c.logical_height / 2 < 2147483648 := by omega
  rw [i32ofU32_of_lt hw, i32ofU32_of_lt hh, i32ofU32_of_lt h2, i32ofU32_of_lt h3]

theorem center_transform_witness :
    to_logical_coords canvas_center_10 0 0 = some (5, 5) ∧
    to_logical_coords canvas_center_10 1 1 = some (6, 4) :=
  ⟨(center_transform canvas_center_10 0 0 rfl (by decide) (by decide)).trans (by decide),
   (center_transform canvas_center_10 1 1 rfl (by decide) (by decide)).trans (by decide)⟩

/-- C10: when a logical dimension exceeds the physical one, `Canvas::new`
computes scale factor 0 on that axis, and then `set_pixel` on any in-bounds
logical coordinate reports success while writing nothing at all: the canvas
(including every byte of the buffer) is returned unchanged. -/
theorem scale_zero_set_pixel_noop (c : Canvas) (x y : Int) (color : Color)
    (hWF : WF c) (hpw : c.physical_width < c.logical_width)
    (lx ly : Nat) (hin : to_logical_coords c x y = some (lx, ly)) :
    c.pixel_scale_x = 0 ∧ set_pixel c x y color = some (true, c) := by
  obtain ⟨hlen, hsmall, hpwb, hphb, hlw0, hlh0, hlw, hlh, hsx, hsy⟩ := hWF
  have hsx0 : c.pixel_scale_x = 0 := by
    rw [hsx]
    exact Nat.div_eq_of_lt hpw
  refine ⟨hsx0, ?_⟩
  rw [set_pixel_eq_T c x y color hlen]
  unfold set_pixelT
  rw [hin]
  dsimp only
  have hbt : block_targets c lx ly = [] := by
    unfold block_targets
    rw [hsx0]
    simp
  rw [hbt]
  rfl

theorem scale_zero_set_pixel_noop_witness :
    (canvas_scale0.pixel_scale_x = 0 ∧
      set_pixel canvas_scale0 0 0 ⟨255, 0, 0, 255⟩ = some (true, canvas_scale0)) ∧
    get_pixel canvas_scale0 0 0 ≠ some (some ⟨255, 0, 0, 255⟩) :=
  ⟨scale_zero_set_pixel_noop canvas_scale0 0 0 ⟨255, 0, 0, 255⟩ (by decide)
      (by decide) 0 0 (by decide),
   by decide⟩

/-- C9: on a frame buffer of exactly the invariant length
`physical_width * physical_height * 4`, none of the canvas operations ever
indexes the buffer out of range (`isSome` states that no modelled panic
occurs), and `clear` rewrites exact 4-byte chunks in place, preserving the
length. -/
theorem no_out_of_range_access (c : Canvas) (hlen : SafeLen c) :
    (∀ x y color, (set_pixel c x y color).isSome) ∧
    (∀ x y, (get_pixel c x y).isSome) ∧
    (∀ color, (clear c color).frame.length = c.frame.length) ∧
    (∀ x y width height color, (fill_rect c x y width height color).isSome) ∧
    (draw_grid c).isSome := by
  refine ⟨?_, ?_, ?_, ?_, ?_⟩
  · intro x y color
    rw [set_pixel_eq_T c x y color hlen]
    rfl
  · intro x y
    unfold get_pixel
    cases h : to_logical_coords c x y with
    | none => rfl
    | some p =>
      obtain ⟨lx, ly⟩ := p
      dsimp only
      by_cases hb : u32 (lx * c.pixel_scale_x) < c.physical_width ∧
          u32 (ly * c.pixel_scale_y) < c.physical_height
      · rw [get_physical_pixel_eq c _ _ hlen hb.1 hb.2]
        rfl
      · rw [get_physical_pixel_oob c _ _ hb]
        rfl
  · intro color
    exact clear_frame_length c.frame color
  · intro x y width height color
    rw [fill_rect_eq_T c x y width height color hlen]
    rfl
  · rw [draw_grid_eq_T c hlen]
    rfl

theorem no_out_of_range_access_witness :
    (set_pixel canvas_2x2_4x4 1 1 ⟨1, 2, 3, 4⟩).isSome ∧
    (draw_grid canvas_2x2_4x4).isSome :=
  ⟨(no_out_of_range_access canvas_2x2_4x4 (by decide)).1 1 1 ⟨1, 2, 3, 4⟩,
   (no_out_of_range_access canvas_2x2_4x4 (by decide)).2.2.2.2⟩

theorem u32_of_lt {n : Nat} (h : n < 4294967296) : u32 n = n :=
  Nat.mod_eq_of_lt h

theorem pixel_index_congr (c c' : Canvas)
    (h : c'.physical_width = c.physical_width) (px py : Nat) :
    pixel_index c' px py = pixel_index c px py := by
  unfold pixel_index
  rw [h]

/-- C3 (amended): on a well-formed canvas whose scale factors are both at
least 1 (logical dimensions not exceeding the physical ones), writing an
in-bounds logical pixel and reading it back returns exactly the written
color. -/
theorem set_get_roundtrip (c : Canvas) (x y : Int) (color : Color) (hWF : WF c)
    (hsx1 : 1 ≤ c.pixel_scale_x) (hsy1 : 1 ≤ c.pixel_scale_y)
    (lx ly : Nat) (hin : to_logical_coords c x y = some (lx, ly)) :
    ∃ c', set_pixel c x y color = some (true, c') ∧
      get_pixel c' x y = some (some color) := by
  obtain ⟨hlen, hsmall, hpw, hph, hlw0, hlh0, hlw, hlh, hsx, hsy⟩ := hWF
  obtain ⟨hlx, hly⟩ := to_logical_coords_lt c x y lx ly hlw hlh hin
  rw [set_pixel_eq_T c x y color hlen]
  unfold set_pixelT
  rw [hin]
  dsimp only
  refine ⟨_, rfl, ?_⟩
  have hfields := paintListT_fields color (block_targets c lx ly) c
  have hsafe' : SafeLen (paintListT c (block_targets c lx ly) color) :=
    paintListT_SafeLen color (block_targets c lx ly) c hlen
  have htl : to_logical_coords (paintListT c (block_targets c lx ly) color) x y =
      some (lx, ly) := by
    rw [to_logical_coords_congr c _ x y hfields.2.2.1 hfields.2.2.2.1
      hfields.2.2.2.2.2.2.1]
    exact hin
  unfold get_pixel
  rw [htl]
  dsimp only
  rw [hfields.2.2.2.2.1, hfields.2.2.2.2.2.1]
  have hbx : lx * c.pixel_scale_x < c.physical_width := by
    have := block_coord_lt_width c lx 0 hsx hlx (by omega)
    omega
  have hby : ly * c.pixel_scale_y < c.physical_height := by
    have := block_coord_lt_height c ly 0 hsy hly (by omega)
    omega
  rw [u32_of_lt (by omega), u32_of_lt (by omega)]
  rw [get_physical_pixel_eq _ _ _ hsafe' (by rw [hfields.1]; exact hbx)
    (by rw [hfields.2.1]; exact hby)]
  have hpi : pixel_index (paintListT c (block_targets c lx ly) color)
      (lx * c.pixel_scale_x) (ly * c.pixel_scale_y) =
      pixel_index c (lx * c.pixel_scale_x) (ly * c.pixel_scale_y) :=
    pixel_index_congr c _ hfields.1 _ _
  have hcover : ∀ k, k < 4 →
      (paintListT c (block_targets c lx ly) color).frame[pixel_index c
        (lx * c.pixel_scale_x) (ly * c.pixel_scale_y) + k]? =
      some (byteOf color k) := by
    intro k hk
    rw [paintListT_getElem? color (block_targets c lx ly) c hlen hsmall _]
    rw [if_pos ?hex]
    case hex =>
      refine ⟨(lx * c.pixel_scale_x, ly * c.pixel_scale_y), ?_, ?_⟩
      · rw [mem_block_targets c lx ly
          ⟨hlen, hsmall, hpw, hph, hlw0, hlh0, hlw, hlh, hsx, hsy⟩ hlx hly]
        exact ⟨0, 0, by omega, by omega, by simp⟩
      · unfold covers
        rw [pixel_index_eq c _ _ hsmall hbx hby]
        dsimp only
        exact ⟨hbx, hby, by omega, by omega⟩
    have hm := pixel_index_eq c (lx * c.pixel_scale_x) (ly * c.pixel_scale_y)
      hsmall hbx hby
    set m := ly * c.pixel_scale_y * c.physical_width + lx * c.pixel_scale_x with hmdef
    have hmod : (pixel_index c (lx * c.pixel_scale_x) (ly * c.pixel_scale_y) + k)
        % 4 = k := by omega
    rw [hmod]
  have hgetD : ∀ k, k < 4 →
      (paintListT c (block_targets c lx ly) color).frame.getD
        (pixel_index (paintListT c (block_targets c lx ly) color)
          (lx * c.pixel_scale_x) (ly * c.pixel_scale_y) + k) 0 = byteOf color k := by
    intro k hk
    rw [List.getD_eq_getElem?_getD, hpi, hcover k hk]
    rfl
  have h0 := hgetD 0 (by omega)
  rw [Nat.add_zero] at h0
  rw [h0, hgetD 1 (by omega), hgetD 2 (by omega), hgetD 3 (by omega)]
  rfl

theorem set_get_roundtrip_witness :
    ∃ c', set_pixel canvas_2x2_4x4 1 0 ⟨10, 20, 30, 40⟩ = some (true, c') ∧
      get_pixel c' 1 0 = some (some ⟨10, 20, 30, 40⟩) :=
  set_get_roundtrip canvas_2x2_4x4 1 0 ⟨10, 20, 30, 40⟩ (by decide) (by decide)
    (by decide) 1 0 (by decide)

/-- C3 (counterexample to the claim as stated): on the canvas with logical
2×2 over physical 1×1 — a canvas `Canvas::new` happily constructs, with the
exact-length buffer `[7,7,7,7]` — the coordinate (0,0) is in bounds, yet
`set_pixel` followed by `get_pixel` returns the old buffer content, not the
written color. -/
theorem set_get_roundtrip_cex :
    to_logical_coords canvas_scale0 0 0 = some (0, 0) ∧
    set_pixel canvas_scale0 0 0 ⟨255, 0, 0, 255⟩ = some (true, canvas_scale0) ∧
    get_pixel canvas_scale0 0 0 = some (some ⟨7, 7, 7, 7⟩) ∧
    (Color.mk 7 7 7 7) ≠ ⟨255, 0, 0, 255⟩ := by decide

/-- C6: a successful `set_pixel` overwrites all four bytes of exactly the
`pixel_scale_x × pixel_scale_y` block of physical pixels whose top-left is
`(logical_x * pixel_scale_x, logical_y * pixel_scale_y)`, and every byte of
the buffer not covered by a pixel of that block is unchanged. -/
theorem set_pixel_block_effect (c : Canvas) (x y : Int) (color : Color)
    (hWF : WF c) (lx ly : Nat) (hin : to_logical_coords c x y = some (lx, ly)) :
    ∃ c', set_pixel c x y color = some (true, c') ∧
      (∀ dx dy k, dx < c.pixel_scale_x → dy < c.pixel_scale_y → k < 4 →
        c'.frame[((ly * c.pixel_scale_y + dy) * c.physical_width +
          (lx * c.pixel_scale_x + dx)) * 4 + k]? = some (byteOf color k)) ∧
      (∀ i, (∀ dx dy, dx < c.pixel_scale_x → dy < c.pixel_scale_y →
          ¬ covers c.physical_width c.physical_height
            (lx * c.pixel_scale_x + dx, ly * c.pixel_scale_y + dy) i) →
        c'.frame[i]? = c.frame[i]?) := by
  obtain ⟨hlen, hsmall, hpw, hph, hlw0, hlh0, hlw, hlh, hsx, hsy⟩ := hWF
  obtain ⟨hlx, hly⟩ := to_logical_coords_lt c x y lx ly hlw hlh hin
  rw [set_pixel_eq_T c x y color hlen]
  unfold set_pixelT
  rw [hin]
  dsimp only
  refine ⟨_, rfl, ?_, ?_⟩
  · intro dx dy k hdx hdy hk
    rw [paintListT_getElem? color (block_targets c lx ly) c hlen hsmall _]
    rw [if_pos ?hpos]
    case hpos =>
      refine ⟨(lx * c.pixel_scale_x + dx, ly * c.pixel_scale_y + dy), ?_, ?_⟩
      · rw [mem_block_targets c lx ly
          ⟨hlen, hsmall, hpw, hph, hlw0, hlh0, hlw, hlh, hsx, hsy⟩ hlx hly]
        exact ⟨dx, dy, hdx, hdy, rfl⟩
      · unfold covers
        dsimp only
        exact ⟨block_coord_lt_width c lx dx hsx hlx hdx,
          block_coord_lt_height c ly dy hsy hly hdy, by omega, by omega⟩
    set m := (ly * c.pixel_scale_y + dy) * c.physical_width +
      (lx * c.pixel_scale_x + dx) with hmdef
    have hmod : (m * 4 + k) % 4 = k := by omega
    rw [hmod]
  · intro i hno
    rw [paintListT_getElem? color (block_targets c lx ly) c hlen hsmall i]
    rw [if_neg ?hneg]
    case hneg =>
      rintro ⟨q, hq, hcov⟩
      rw [mem_block_targets c lx ly
        ⟨hlen, hsmall, hpw, hph, hlw0, hlh0, hlw, hlh, hsx, hsy⟩ hlx hly] at hq
      obtain ⟨dx, dy, hdx, hdy, rfl⟩ := hq
      exact hno dx dy hdx hdy hcov

theorem set_pixel_block_effect_witness :
    ∃ c', set_pixel canvas_2x2_4x4 0 0 ⟨255, 0, 0, 255⟩ = some (true, c') ∧
      (∀ dx dy k, dx < canvas_2x2_4x4.pixel_scale_x →
          dy < canvas_2x2_4x4.pixel_scale_y → k < 4 →
        c'.frame[((0 * canvas_2x2_4x4.pixel_scale_y + dy) *
          canvas_2x2_4x4.physical_width +
          (0 * canvas_2x2_4x4.pixel_scale_x + dx)) * 4 + k]? =
          some (byteOf ⟨255, 0, 0, 255⟩ k)) ∧
      (∀ i, (∀ dx dy, dx < canvas_2x2_4x4.pixel_scale_x →
          dy < canvas_2x2_4x4.pixel_scale_y →
          ¬ covers canvas_2x2_4x4.physical_width canvas_2x2_4x4.physical_height
            (0 * canvas_2x2_4x4.pixel_scale_x + dx,
             0 * canvas_2x2_4x4.pixel_scale_y + dy) i) →
        c'.frame[i]? = canvas_2x2_4x4.frame[i]?) :=
  set_pixel_block_effect canvas_2x2_4x4 0 0 ⟨255, 0, 0, 255⟩ (by decide) 0 0
    (by decide)

/-- Pointwise effect of one (total) `set_pixel` call: a written byte. -/
theorem set_pixelT_frame_pos (c : Canvas) (x y : Int) (color : Color)
    (hlen : SafeLen c)
    (hsmall : c.physical_width * c.physical_height * 4 ≤ 4294967296) (i : Nat)
    (hw : set_pixel_writes c x y i) :
    (set_pixelT c x y color).2.frame[i]? = some (byteOf color (i % 4)) := by
  unfold set_pixelT
  unfold set_pixel_writes at hw
  rcases htl : to_logical_coords c x y with _ | ⟨lx, ly⟩
  · rw [htl] at hw
    exact (hw : False).elim
  · rw [htl] at hw
    obtain ⟨q, hq, hc⟩ := hw
    dsimp only
    rw [paintListT_getElem? color (block_targets c lx ly) c hlen hsmall i]
    rw [if_pos ⟨q, hq, hc⟩]

/-- Pointwise effect of one (total) `set_pixel` call: an untouched byte. -/
theorem set_pixelT_frame_neg (c : Canvas) (x y : Int) (color : Color)
    (hlen : SafeLen c)
    (hsmall : c.physical_width * c.physical_height * 4 ≤ 4294967296) (i : Nat)
    (hw : ¬ set_pixel_writes c x y i) :
    (set_pixelT c x y color).2.frame[i]? = c.frame[i]? := by
  unfold set_pixelT
  unfold set_pixel_writes at hw
  rcases htl : to_logical_coords c x y with _ | ⟨lx, ly⟩
  · rfl
  · rw [htl] at hw
    dsimp only
    rw [paintListT_getElem? color (block_targets c lx ly) c hlen hsmall i]
    rw [if_neg (fun h => hw h)]

theorem foldl_set_pixelT_fields (color : Color) :
    ∀ (ps : List (Int × Int)) (c : Canvas),
      ((ps.foldl (fun acc p => (set_pixelT acc p.1 p.2 color).2) c).physical_width =
        c.physical_width) ∧
      ((ps.foldl (fun acc p => (set_pixelT acc p.1 p.2 color).2) c).physical_height =
        c.physical_height) ∧
      ((ps.foldl (fun acc p => (set_pixelT acc p.1 p.2 color).2) c).logical_width =
        c.logical_width) ∧
      ((ps.foldl (fun acc p => (set_pixelT acc p.1 p.2 color).2) c).logical_height =
        c.logical_height) ∧
      ((ps.foldl (fun acc p => (set_pixelT acc p.1 p.2 color).2) c).pixel_scale_x =
        c.pixel_scale_x) ∧
      ((ps.foldl (fun acc p => (set_pixelT acc p.1 p.2 color).2) c).pixel_scale_y =
        c.pixel_scale_y) ∧
      ((ps.foldl (fun acc p => (set_pixelT acc p.1 p.2 color).2) c).coordinate_system =
        c.coordinate_system) ∧
      ((ps.foldl (fun acc p => (set_pixelT acc p.1 p.2 color).2) c).show_grid =
        c.show_grid) ∧
      ((ps.foldl (fun acc p => (set_pixelT acc p.1 p.2 color).2) c).grid_color =
        c.grid_color) ∧
      ((ps.foldl (fun acc p => (set_pixelT acc p.1 p.2 color).2) c).frame.length =
        c.frame.length) := by
  intro ps
  induction ps with
  | nil => intro c; exact ⟨rfl, rfl, rfl, rfl, rfl, rfl, rfl, rfl, rfl, rfl⟩
  | cons p rest ih =>
    intro c
    have h := ih (set_pixelT c p.1 p.2 color).2
    have h' := set_pixelT_fields c p.1 p.2 color
    simp only [List.foldl_cons]
    refine ⟨?_, ?_, ?_, ?_, ?_, ?_, ?_, ?_, ?_, ?_⟩ <;>
      simp only [h.1, h.2.1, h.2.2.1, h.2.2.2.1, h.2.2.2.2.1, h.2.2.2.2.2.1,
        h.2.2.2.2.2.2.1, h.2.2.2.2.2.2.2.1, h.2.2.2.2.2.2.2.2.1,
        h.2.2.2.2.2.2.2.2.2, h'.1, h'.2.1, h'.2.2.1, h'.2.2.2.1, h'.2.2.2.2.1,
        h'.2.2.2.2.2.1, h'.2.2.2.2.2.2.1, h'.2.2.2.2.2.2.2.1,
        h'.2.2.2.2.2.2.2.2.1, h'.2.2.2.2.2.2.2.2.2]

theorem set_pixel_writes_congr (c c' : Canvas) (x y : Int) (i : Nat)
    (h1 : c'.physical_width = c.physical_width)
    (h2 : c'.physical_height = c.physical_height)
    (h3 : c'.logical_width = c.logical_width)
    (h4 : c'.logical_height = c.logical_height)
    (h5 : c'.pixel_scale_x = c.pixel_scale_x)
    (h6 : c'.pixel_scale_y = c.pixel_scale_y)
    (h7 : c'.coordinate_system = c.coordinate_system) :
    set_pixel_writes c' x y i ↔ set_pixel_writes c x y i := by
  unfold set_pixel_writes
  rw [to_logical_coords_congr c c' x y h3 h4 h7]
  cases to_logical_coords c x y with
  | none => exact Iff.rfl
  | some p =>
    obtain ⟨lx, ly⟩ := p
    dsimp only
    have hbt : block_targets c' lx ly = block_targets c lx ly := by
      unfold block_targets
      rw [h5, h6]
    rw [hbt, h1, h2]

/-- Pointwise effect of a sequence of (total) `set_pixel` calls with one
color: a byte holds the color's channel iff some call writes it; the
condition only depends on the set of offsets, not their order. -/
theorem foldl_set_pixelT_getElem? (color : Color) :
    ∀ (ps : List (Int × Int)) (c : Canvas), SafeLen c →
      c.physical_width * c.physical_height * 4 ≤ 4294967296 → ∀ i,
      (ps.foldl (fun acc p => (set_pixelT acc p.1 p.2 color).2) c).frame[i]? =
        if ∃ p ∈ ps, set_pixel_writes c p.1 p.2 i
        then some (byteOf color (i % 4)) else c.frame[i]? := by
  intro ps
  induction ps with
  | nil =>
    intro c _ _ i
    simp
  | cons p rest ih =>
    intro c hlen hsmall i
    have hfT := set_pixelT_fields c p.1 p.2 color
    have hih := ih (set_pixelT c p.1 p.2 color).2
      (set_pixelT_SafeLen c p.1 p.2 color hlen)
      (by rw [hfT.1, hfT.2.1]; exact hsmall) i
    simp only [List.foldl_cons]
    rw [hih]
    have hcong : ∀ q : Int × Int,
        set_pixel_writes (set_pixelT c p.1 p.2 color).2 q.1 q.2 i ↔
        set_pixel_writes c q.1 q.2 i := fun q =>
      set_pixel_writes_congr c _ q.1 q.2 i hfT.1 hfT.2.1 hfT.2.2.1 hfT.2.2.2.1
        hfT.2.2.2.2.1 hfT.2.2.2.2.2.1 hfT.2.2.2.2.2.2.1
    by_cases hrest : ∃ q ∈ rest, set_pixel_writes c q.1 q.2 i
    · obtain ⟨q, hq, hw'⟩ := hrest
      rw [if_pos ⟨q, hq, (hcong q).mpr hw'⟩,
        if_pos ⟨q, List.mem_cons_of_mem p hq, hw'⟩]
    · rw [if_neg (by
        rintro ⟨q, hq, hw'⟩
        exact hrest ⟨q, hq, (hcong q).mp hw'⟩)]
      by_cases hp : set_pixel_writes c p.1 p.2 i
      · rw [set_pixelT_frame_pos c p.1 p.2 color hlen hsmall i hp,
          if_pos ⟨p, List.mem_cons_self p rest, hp⟩]
      · rw [set_pixelT_frame_neg c p.1 p.2 color hlen hsmall i hp,
          if_neg (by
          rintro ⟨q, hq, hw'⟩
          rcases List.mem_cons.mp hq with rfl | hq'
          · exact hp hw'
          · exact hrest ⟨q, hq', hw'⟩)]

theorem canvas_eq_of_fields (a b : Canvas) (hf : a.frame = b.frame)
    (h1 : a.physical_width = b.physical_width)
    (h2 : a.physical_height = b.physical_height)
    (h3 : a.logical_width = b.logical_width)
    (h4 : a.logical_height = b.logical_height)
    (h5 : a.pixel_scale_x = b.pixel_scale_x)
    (h6 : a.pixel_scale_y = b.pixel_scale_y)
    (h7 : a.coordinate_system = b.coordinate_system)
    (h8 : a.show_grid = b.show_grid)
    (h9 : a.grid_color = b.grid_color) : a = b := by
  cases a
  cases b
  simp_all

/-- Folding (total) `set_pixel` calls of one color over two lists that are
permutations of each other produces the same canvas. -/
theorem foldl_set_pixelT_perm (color : Color) (c : Canvas) (hlen : SafeLen c)
    (hsmall : c.physical_width * c.physical_height * 4 ≤ 4294967296)
    (l l' : List (Int × Int)) (hperm : l.Perm l') :
    l.foldl (fun acc p => (set_pixelT acc p.1 p.2 color).2) c =
      l'.foldl (fun acc p => (set_pixelT acc p.1 p.2 color).2) c := by
  have hf := foldl_set_pixelT_fields color l c
  have hf' := foldl_set_pixelT_fields color l' c
  apply canvas_eq_of_fields
  · apply List.ext_getElem?
    intro i
    rw [foldl_set_pixelT_getElem? color l c hlen hsmall i,
      foldl_set_pixelT_getElem? color l' c hlen hsmall i]
    exact if_congr
      ⟨fun ⟨q, h1, h2⟩ => ⟨q, hperm.mem_iff.mp h1, h2⟩,
       fun ⟨q, h1, h2⟩ => ⟨q, hperm.mem_iff.mpr h1, h2⟩⟩ rfl rfl
  · rw [hf.1, hf'.1]
  · rw [hf.2.1, hf'.2.1]
  · rw [hf.2.2.1, hf'.2.2.1]
  · rw [hf.2.2.2.1, hf'.2.2.2.1]
  · rw [hf.2.2.2.2.1, hf'.2.2.2.2.1]
  · rw [hf.2.2.2.2.2.1, hf'.2.2.2.2.2.1]
  · rw [hf.2.2.2.2.2.2.1, hf'.2.2.2.2.2.2.1]
  · rw [hf.2.2.2.2.2.2.2.1, hf'.2.2.2.2.2.2.2.1]
  · rw [hf.2.2.2.2.2.2.2.2.1, hf'.2.2.2.2.2.2.2.2.1]

/-- Below `2^31` the `u32 -> i32` casts of `fill_rect` are harmless and the
loops visit exactly the spec's offsets. -/
theorem fill_offsets_eq_spec (x y : Int) (width height : Nat)
    (hw : width < 2147483648) (hh : height < 2147483648) :
    fill_offsets x y width height = rect_offsets_spec x y width height := by
  unfold fill_offsets rect_offsets_spec
  rw [i32ofU32_of_lt hw, i32ofU32_of_lt hh]
  simp

/-- C7 (amended): for rectangle dimensions below `2^31`, `fill_rect` equals
the `width*height` individual `set_pixel` calls at offsets `(x+dx, y+dy)`
performed in any order; zero-area rectangles and out-of-bounds offsets are
silently skipped by `set_pixel`'s clipping. -/
theorem fill_rect_composition (c : Canvas) (x y : Int) (width height : Nat)
    (color : Color) (hWF : WF c) (hw : width < 2147483648)
    (hh : height < 2147483648) (l : List (Int × Int))
    (hl : l.Perm (rect_offsets_spec x y width height)) :
    fill_rect c x y width height color =
      l.foldlM (fun acc p => (set_pixel acc p.1 p.2 color).map (fun r => r.2)) c := by
  obtain ⟨hlen, hsmall, -, -, -, -, -, -, -, -⟩ := hWF
  rw [fill_rect_eq_T c x y width height color hlen,
    fill_offsets_eq_spec x y width height hw hh,
    foldlM_set_pixel_eq color l c hlen]
  exact congrArg some
    (foldl_set_pixelT_perm color c hlen hsmall _ _ hl).symm

theorem fill_rect_composition_witness :
    fill_rect canvas_2x2_4x4 0 0 2 1 ⟨5, 6, 7, 8⟩ =
      ([((1 : Int), (0 : Int)), (0, 0)]).foldlM
        (fun acc p => (set_pixel acc p.1 p.2 ⟨5, 6, 7, 8⟩).map (fun r => r.2))
        canvas_2x2_4x4 :=
  fill_rect_composition canvas_2x2_4x4 0 0 2 1 ⟨5, 6, 7, 8⟩ (by decide)
    (by decide) (by decide) [(1, 0), (0, 0)] (by decide)

theorem mem_rect_offsets_spec (x y : Int) (width height dx dy : Nat)
    (hdx : dx < width) (hdy : dy < height) :
    (x + (dx : Int), y + (dy : Int)) ∈ rect_offsets_spec x y width height := by
  unfold rect_offsets_spec
  refine List.mem_flatMap.mpr ⟨dy, List.mem_range.mpr hdy, ?_⟩
  exact List.mem_map.mpr ⟨dx, List.mem_range.mpr hdx, rfl⟩

/-- C7 (counterexample to the claim as stated): with `width = 2^31` the
`u32 -> i32` cast makes the loop empty, so `fill_rect` paints nothing, while
the claimed composition of `set_pixel` calls would paint pixel (0,0). -/
theorem fill_rect_composition_cex :
    fill_rect canvas_1x1 0 0 2147483648 1 ⟨255, 0, 0, 255⟩ = some canvas_1x1 ∧
    (rect_offsets_spec 0 0 2147483648 1).foldlM
      (fun acc p => (set_pixel acc p.1 p.2 ⟨255, 0, 0, 255⟩).map (fun r => r.2))
      canvas_1x1 ≠ some canvas_1x1 := by
  have hsafe : SafeLen canvas_1x1 := by decide
  constructor
  · rfl
  · intro hcontra
    rw [foldlM_set_pixel_eq ⟨255, 0, 0, 255⟩ (rect_offsets_spec 0 0 2147483648 1)
      canvas_1x1 hsafe] at hcontra
    have heq := Option.some.inj hcontra
    have hbyte := congrArg (fun cc => cc.frame[0]?) heq
    dsimp only at hbyte
    rw [foldl_set_pixelT_getElem? ⟨255, 0, 0, 255⟩
      (rect_offsets_spec 0 0 2147483648 1) canvas_1x1 hsafe (by decide) 0] at hbyte
    rw [if_pos ?hmem] at hbyte
    case hmem =>
      refine ⟨((0 : Int), (0 : Int)), ?_, ?_⟩
      · have h := mem_rect_offsets_spec 0 0 2147483648 1 0 0 (by omega) (by omega)
        simpa using h
      · show set_pixel_writes canvas_1x1 0 0 0
        unfold set_pixel_writes
        rw [show to_logical_coords canvas_1x1 0 0 = some (0, 0) from by decide]
        exact ⟨(0, 0), by decide, by decide⟩
    exact absurd hbyte (by decide)

theorem mem_grid_targets (c : Canvas) (hWF : WF c) (q : Nat × Nat) :
    q ∈ grid_targets c ↔
      ((∃ lx, lx ≤ c.logical_width ∧ q.1 = lx * c.pixel_scale_x) ∧
        q.1 < c.physical_width ∧ q.2 < c.physical_height) ∨
      ((∃ ly, ly ≤ c.logical_height ∧ q.2 = ly * c.pixel_scale_y) ∧
        q.1 < c.physical_width ∧ q.2 < c.physical_height) := by
  obtain ⟨hlen, hsmall, hpw, hph, hlw0, hlh0, hlw, hlh, hsx, hsy⟩ := hWF
  have hlex : c.logical_width * c.pixel_scale_x ≤ c.physical_width := by
    rw [hsx]
    calc c.logical_width * (c.physical_width / c.logical_width)
        = c.physical_width / c.logical_width * c.logical_width := Nat.mul_comm _ _
      _ ≤ c.physical_width := Nat.div_mul_le_self _ _
  have hley : c.logical_height * c.pixel_scale_y ≤ c.physical_height := by
    rw [hsy]
    calc c.logical_height * (c.physical_height / c.logical_height)
        = c.physical_height / c.logical_height * c.logical_height := Nat.mul_comm _ _
      _ ≤ c.physical_height := Nat.div_mul_le_self _ _
  have hux : ∀ lx, lx ≤ c.logical_width →
      u32 (lx * c.pixel_scale_x) = lx * c.pixel_scale_x := by
    intro lx h
    apply u32_of_lt
    have := Nat.mul_le_mul_right c.pixel_scale_x h
    omega
  have huy : ∀ ly, ly ≤ c.logical_height →
      u32 (ly * c.pixel_scale_y) = ly * c.pixel_scale_y := by
    intro ly h
    apply u32_of_lt
    have := Nat.mul_le_mul_right c.pixel_scale_y h
    omega
  unfold grid_targets
  rw [List.mem_append]
  constructor
  · rintro (h | h)
    · obtain ⟨lx, hlxr, hq⟩ := List.mem_flatMap.mp h
      rw [List.mem_range] at hlxr
      have hlx' : lx ≤ c.logical_width := by omega
      rw [hux lx hlx'] at hq
      by_cases hc : lx * c.pixel_scale_x < c.physical_width
      · rw [if_pos hc] at hq
        obtain ⟨py, hpy, hq2⟩ := List.mem_map.mp hq
        rw [List.mem_range] at hpy
        refine Or.inl ⟨⟨lx, hlx', ?_⟩, ?_, ?_⟩
        · rw [← hq2]
        · rw [← hq2]
          exact hc
        · rw [← hq2]
          exact hpy
      · rw [if_neg hc] at hq
        exact absurd hq (List.not_mem_nil q)
    · obtain ⟨ly, hlyr, hq⟩ := List.mem_flatMap.mp h
      rw [List.mem_range] at hlyr
      have hly' : ly ≤ c.logical_height := by omega
      rw [huy ly hly'] at hq
      by_cases hc : ly * c.pixel_scale_y < c.physical_height
      · rw [if_pos hc] at hq
        obtain ⟨px, hpx, hq2⟩ := List.mem_map.mp hq
        rw [List.mem_range] at hpx
        refine Or.inr ⟨⟨ly, hly', ?_⟩, ?_, ?_⟩
        · rw [← hq2]
        · rw [← hq2]
          exact hpx
        · rw [← hq2]
          exact hc
      · rw [if_neg hc] at hq
        exact absurd hq (List.not_mem_nil q)
  · rintro (⟨⟨lx, hlx', hq1⟩, hlt1, hlt2⟩ | ⟨⟨ly, hly', hq2⟩, hlt1, hlt2⟩)
    · refine Or.inl (List.mem_flatMap.mpr ⟨lx, List.mem_range.mpr (by omega), ?_⟩)
      rw [hux lx hlx', if_pos (hq1 ▸ hlt1)]
      refine List.mem_map.mpr ⟨q.2, List.mem_range.mpr hlt2, ?_⟩
      show (lx * c.pixel_scale_x, q.2) = q
      rw [← hq1]
    · refine Or.inr (List.mem_flatMap.mpr ⟨ly, List.mem_range.mpr (by omega), ?_⟩)
      rw [huy ly hly', if_pos (hq2 ▸ hlt2)]
      refine List.mem_map.mpr ⟨q.1, List.mem_range.mpr hlt1, ?_⟩
      show (q.1, ly * c.pixel_scale_y) = q
      rw [← hq2]

/-- The bytes covered by the grid-target pixels are exactly the grid-line
bytes. -/
theorem grid_cond_iff (c : Canvas) (hWF : WF c) (i : Nat) :
    (∃ p ∈ grid_targets c, covers c.physical_width c.physical_height p i) ↔
      on_grid_line c i := by
  constructor
  · rintro ⟨p, hp, hcov⟩
    rw [mem_grid_targets c hWF p] at hp
    obtain ⟨h1, h2, h3, h4⟩ := hcov
    refine ⟨p.1, p.2, i - (p.2 * c.physical_width + p.1) * 4, h1, h2, by omega,
      by omega, ?_⟩
    rcases hp with ⟨⟨lx, h5, h6⟩, -⟩ | ⟨⟨ly, h5, h6⟩, -⟩
    · exact Or.inl ⟨lx, h5, h6⟩
    · exact Or.inr ⟨ly, h5, h6⟩
  · rintro ⟨px, py, k, hpx, hpy, hk, hi, hor⟩
    refine ⟨(px, py), ?_, ?_⟩
    · rw [mem_grid_targets c hWF]
      rcases hor with ⟨lx, h1, h2⟩ | ⟨ly, h1, h2⟩
      · exact Or.inl ⟨⟨lx, h1, h2⟩, hpx, hpy⟩
      · exact Or.inr ⟨⟨ly, h1, h2⟩, hpx, hpy⟩
    · unfold covers
      dsimp only
      exact ⟨hpx, hpy, by omega, by omega⟩

/-- C1 (amended): `draw_grid` is a no-op unless the grid is enabled and BOTH
scale factors exceed 1; when active it overwrites with `grid_color` exactly
the bytes of the grid-line pixels — every column boundary
`0..=logical_width` whose physical x lies in the buffer, full height, and
every row boundary `0..=logical_height`, full width — and leaves every other
byte of previously drawn content unchanged. -/
theorem draw_grid_amended (c : Canvas) (hWF : WF c) :
    (c.show_grid = false ∨ c.pixel_scale_x ≤ 1 ∨ c.pixel_scale_y ≤ 1 →
      draw_grid c = some c) ∧
    (c.show_grid = true → 1 < c.pixel_scale_x → 1 < c.pixel_scale_y →
      ∃ c', draw_grid c = some c' ∧
        (∀ i, on_grid_line c i →
          c'.frame[i]? = some (byteOf c.grid_color (i % 4))) ∧
        (∀ i, ¬ on_grid_line c i → c'.frame[i]? = c.frame[i]?)) := by
  constructor
  · intro h
    unfold draw_grid
    rw [if_pos h]
  · intro hsg hsx1 hsy1
    rw [draw_grid_eq_T c hWF.1]
    unfold draw_gridT
    rw [if_neg (by
      push_neg
      exact ⟨by simp [hsg], by omega, by omega⟩)]
    refine ⟨_, rfl, ?_, ?_⟩
    · intro i hline
      rw [paintListT_getElem? c.grid_color (grid_targets c) c hWF.1 hWF.2.1 i]
      rw [if_pos ((grid_cond_iff c hWF i).mpr hline)]
    · intro i hline
      rw [paintListT_getElem? c.grid_color (grid_targets c) c hWF.1 hWF.2.1 i]
      rw [if_neg (fun h => hline ((grid_cond_iff c hWF i).mp h))]

theorem draw_grid_amended_witness :
    ∃ c', draw_grid canvas_grid_active = some c' ∧
      (∀ i, on_grid_line canvas_grid_active i →
        c'.frame[i]? = some (byteOf canvas_grid_active.grid_color (i % 4))) ∧
      (∀ i, ¬ on_grid_line canvas_grid_active i →
        c'.frame[i]? = canvas_grid_active.frame[i]?) :=
  (draw_grid_amended canvas_grid_active (by decide)).2 rfl (by decide) (by decide)

/-- C1 (counterexample to the claim as stated): on a canvas with the grid
enabled and horizontal scale 2 (vertical scale 1), the claim says grid lines
are drawn ("at least one scale factor exceeds 1"), in particular byte 0 of
pixel (0,0) — on the column boundary `0 = 0 * pixel_scale_x` — would become
`grid_color.r = 9`; but the code returns with the buffer unchanged, byte 0
still 0, because it requires BOTH scale factors to exceed 1. -/
theorem draw_grid_cex :
    canvas_grid_cex.show_grid = true ∧ 1 < canvas_grid_cex.pixel_scale_x ∧
    draw_grid canvas_grid_cex = some canvas_grid_cex ∧
    canvas_grid_cex.frame[0]? = some 0 ∧ canvas_grid_cex.grid_color.r = 9 := by
  refine ⟨rfl, by decide, ?_, by decide, rfl⟩
  unfold draw_grid
  rw [if_pos (Or.inr (Or.inr (by decide)))]
